import Mathlib

/-
Verification of the SQP multiple-shooting solver core (MultipleShootingSolver.cpp)
and the named-term Collection (Collection.h).

Conventions of the shallow embedding:
  * C++ `scalar_t` (double) is embedded as an exact field: `ℚ` for the purely
    algebraic parts (QP solution post-processing, primal-solution assembly,
    collections), `ℝ` for the line-search logic, which takes square roots.
  * `vector_t` / `matrix_t` (dynamic-size Eigen objects) are `List R` and
    `List (List R)` (row-major).
  * Code whose body lives outside the provided sources (the per-node
    transcription workers, the HPIPM QP backend) enters as explicit function
    parameters of the definitions that call it.
  * The do/while line-search loop is embedded as a step relation
    (`TakeStepExec`) whose constructors are the four exit/continue branches of
    the loop body.
-/

namespace ocs2

/-! ## Dense linear algebra on dynamically sized vectors and matrices -/

/-- Inner product of two dynamic vectors (Eigen `dot`); truncates at the
shorter operand, matching use sites where sizes agree. -/
def dot {R : Type} [CommRing R] (a b : List R) : R :=
  (List.zipWith (fun x y => x * y) a b).sum

/-- Componentwise vector sum. -/
def vadd {R : Type} [CommRing R] (a b : List R) : List R :=
  List.zipWith (fun x y => x + y) a b

/-- Componentwise vector difference. -/
def vsub {R : Type} [CommRing R] (a b : List R) : List R :=
  List.zipWith (fun x y => x - y) a b

/-- Scalar multiple of a vector. -/
def smulV {R : Type} [CommRing R] (c : R) (v : List R) : List R :=
  v.map (fun x => c * x)

/-- Matrix-vector product; the matrix is a list of rows. -/
def matVec {R : Type} [CommRing R] (M : List (List R)) (v : List R) : List R :=
  M.map (fun row => dot row v)

/-- Matrix sum. -/
def matAdd {R : Type} [CommRing R] (A B : List (List R)) : List (List R) :=
  List.zipWith vadd A B

/-- Matrix product via rows of the left operand against columns of the right. -/
def matMul {R : Type} [CommRing R] (A B : List (List R)) : List (List R) :=
  A.map (fun row => B.transpose.map (fun col => dot row col))

/-- Sum of squares of the entries of a vector (Eigen `squaredNorm`). -/
def sumSq (v : List ℝ) : ℝ :=
  (v.map (fun x => x * x)).sum

/-! ## Collection (Collection.h) -/

/-- `Collection<T>`: insertion-ordered term storage `terms_` plus the
name-to-index lookup `termNameMap_` (the `unordered_map` is embedded as an
association list; only lookup order by key matters). -/
structure Collection (α : Type) where
  terms : List α
  termNameMap : List (String × ℕ)

/-- Lookup of a name in the name-to-index map (`unordered_map::find / at`). -/
def findIndexByName (m : List (String × ℕ)) (name : String) : Option ℕ :=
  match m with
  | [] => none
  | (k, v) :: rest => if k = name then some v else findIndexByName rest name

/-- `Collection::empty`. -/
def Collection.empty {α : Type} (c : Collection α) : Bool :=
  c.terms.isEmpty

/-- `Collection::add`: `emplace` the `(name, nextIndex)` pair; on success push
the term at the back, on a duplicate name report the error and leave the
collection unchanged (the C++ throws `std::runtime_error`).  The first
component is the error, `none` meaning success. -/
def Collection.add {α : Type} (c : Collection α) (name : String) (term : α) :
    Option String × Collection α :=
  match findIndexByName c.termNameMap name with
  | some _ =>
      (some ("[Collection::add] Term with name " ++ name ++ " already exists"), c)
  | none =>
      (none,
        { terms := c.terms ++ [term],
          termNameMap := c.termNameMap ++ [(name, c.terms.length)] })

/-- `Collection::get`: `termNameMap_.at(name)` throws on an unknown name
(embedded as `Except.error`); the subsequent vector access is in range by the
collection invariant, the defensive `none` branch mirrors that it cannot
produce a term. -/
def Collection.get {α : Type} (c : Collection α) (name : String) : Except String α :=
  match findIndexByName c.termNameMap name with
  | none => Except.error ("[Collection::get] unknown term " ++ name)
  | some index =>
      match c.terms.get? index with
      | none => Except.error ("[Collection::get] index out of range for " ++ name)
      | some term => Except.ok term

/-! ## Solver data model -/

/-- The subset of the optimal-control-problem definition the analysed code
touches: the state-input equality-constraint collection (term payloads are
irrelevant here and embedded as `ℕ`). -/
structure OptimalControlProblem where
  equalityConstraintPtr : Collection ℕ

/-- The SQP settings fields read by the analysed code. -/
structure Settings where
  nThreads : ℕ
  sqpIteration : ℕ
  alpha_decay : ℝ
  alpha_min : ℝ
  gamma_c : ℝ
  g_max : ℝ
  g_min : ℝ
  costTol : ℝ
  deltaTol : ℝ
  armijoFactor : ℝ
  projectStateInputEqualityConstraints : Bool
  useFeedbackPolicy : Bool

/-- The performance-index fields used by the solver. -/
structure PerformanceIndex where
  merit : ℝ
  totalCost : ℝ
  stateEqConstraintISE : ℝ
  stateInputEqConstraintISE : ℝ
  inequalityConstraintISE : ℝ
  inequalityConstraintPenalty : ℝ

/-- Modelled from the spec: `PerformanceIndex` supports additive (fieldwise)
accumulation; its definition file is not among the provided sources, only its
use through `operator+=` and `std::accumulate`. -/
instance : Add PerformanceIndex :=
  ⟨fun a b =>
    ⟨a.merit + b.merit, a.totalCost + b.totalCost,
      a.stateEqConstraintISE + b.stateEqConstraintISE,
      a.stateInputEqConstraintISE + b.stateInputEqConstraintISE,
      a.inequalityConstraintISE + b.inequalityConstraintISE,
      a.inequalityConstraintPenalty + b.inequalityConstraintPenalty⟩⟩

/-- Solver state relevant to construction, reset, the iterations log and the
performance bookkeeping of `runImpl`. -/
structure MultipleShootingSolver where
  settings : Settings
  performanceIndeces : List PerformanceIndex
  totalNumIterations : ℕ

/-- The `MultipleShootingSolver` constructor: all numerical members aside, it
forces `projectStateInputEqualityConstraints` to `false` whenever the problem
has an empty equality-constraint collection. -/
def mkMultipleShootingSolver (settings : Settings)
    (optimalControlProblem : OptimalControlProblem) : MultipleShootingSolver :=
  { settings :=
      if optimalControlProblem.equalityConstraintPtr.empty then
        { settings with projectStateInputEqualityConstraints := false }
      else settings,
    performanceIndeces := [],
    totalNumIterations := 0 }

/-- `MultipleShootingSolver::reset`: clears the solution, the performance log
and the iteration counter. -/
def MultipleShootingSolver.reset (s : MultipleShootingSolver) : MultipleShootingSolver :=
  { s with performanceIndeces := [], totalNumIterations := 0 }

/-- `MultipleShootingSolver::getIterationsLog`: throws when the log is empty,
otherwise returns it. -/
def getIterationsLog (s : MultipleShootingSolver) :
    Except String (List PerformanceIndex) :=
  if s.performanceIndeces.isEmpty then
    Except.error "[MultipleShootingSolver]: No performance log yet, no problem solved yet?"
  else
    Except.ok s.performanceIndeces

/-- The iteration loop of `runImpl`, seen through its bookkeeping: one entry is
pushed onto the log per SQP iteration, and the loop breaks after the first
converged step.  The whole numerical content of an iteration is abstracted as
`step : iteration number → (converged flag, performance index)`. -/
def sqpIterationLog (step : ℕ → Bool × PerformanceIndex) :
    ℕ → ℕ → List PerformanceIndex
  | 0, _ => []
  | fuel + 1, iter =>
      (step iter).2 ::
        (if (step iter).1 then [] else sqpIterationLog step fuel (iter + 1))

/-- The number of `totalNumIterations_` increments performed by the same loop. -/
def sqpIterationCount (step : ℕ → Bool × PerformanceIndex) : ℕ → ℕ → ℕ
  | 0, _ => 0
  | fuel + 1, iter =>
      1 + (if (step iter).1 then 0 else sqpIterationCount step fuel (iter + 1))

/-- `MultipleShootingSolver::runImpl` bookkeeping: the log is cleared and then
filled by the iteration loop, the iteration counter advances once per
iteration. -/
def MultipleShootingSolver.runImpl (s : MultipleShootingSolver)
    (step : ℕ → Bool × PerformanceIndex) : MultipleShootingSolver :=
  { s with
    performanceIndeces := sqpIterationLog step s.settings.sqpIteration 0,
    totalNumIterations :=
      s.totalNumIterations + sqpIterationCount step s.settings.sqpIteration 0 }

/-! ## Performance assembly (setupQuadraticSubproblem / computePerformance) -/

/-- The shared tail of `setupQuadraticSubproblem` and `computePerformance`:
add the initial-state defect to the first worker performance, accumulate all
workers (`std::accumulate` seeded with the front element), then set
`merit = totalCost + inequalityConstraintPenalty`. -/
def assembleTotalPerformance (front : PerformanceIndex)
    (rest : List PerformanceIndex) (initStateDefectSq : ℝ) : PerformanceIndex :=
  let front2 :=
    { front with stateEqConstraintISE := front.stateEqConstraintISE + initStateDefectSq }
  let tot := rest.foldl (fun a b => a + b) front2
  { tot with merit := tot.totalCost + tot.inequalityConstraintPenalty }

/-- `setupQuadraticSubproblem` result performance: the per-node approximation
work is external to the analysed translation unit, so the per-worker
performances enter as parameters. -/
def setupQuadraticSubproblemPerformance (front : PerformanceIndex)
    (rest : List PerformanceIndex) (initStateDefectSq : ℝ) : PerformanceIndex :=
  assembleTotalPerformance front rest initStateDefectSq

/-- `computePerformance` result: same assembly over the recomputation sweep. -/
def computePerformanceTotal (front : PerformanceIndex)
    (rest : List PerformanceIndex) (initStateDefectSq : ℝ) : PerformanceIndex :=
  assembleTotalPerformance front rest initStateDefectSq

/-! ## QP solution post-processing (getOCPSolution) -/

/-- The gradient part of `ScalarFunctionQuadraticApproximation` (the only
fields `getOCPSolution` reads from `cost_`). -/
structure ScalarFunctionQuadraticApproximation where
  dfdx : List ℚ
  dfdu : List ℚ

/-- `VectorFunctionLinearApproximation`, as used for the state-input equality
constraint projection terms. -/
structure VectorFunctionLinearApproximation where
  dfdx : List (List ℚ)
  dfdu : List (List ℚ)
  f : List ℚ

/-- Default-constructed (empty) cost approximation. -/
def emptyCost : ScalarFunctionQuadraticApproximation := ⟨[], []⟩

/-- Default-constructed (empty) linear approximation. -/
def emptyProjection : VectorFunctionLinearApproximation := ⟨[], [], []⟩

/-- The Armijo descent metric loop of `getOCPSolution`: over all cost nodes,
add `dfdx · δx` and `dfdu · δu`, each guarded by a non-empty gradient. -/
def armijoDescentMetricOf (cost : List ScalarFunctionQuadraticApproximation)
    (deltaXSol deltaUSol : List (List ℚ)) : ℚ :=
  ((List.range cost.length).map (fun i =>
    (if 0 < (cost.getD i emptyCost).dfdx.length then
      dot (cost.getD i emptyCost).dfdx (deltaXSol.getD i []) else 0) +
    (if 0 < (cost.getD i emptyCost).dfdu.length then
      dot (cost.getD i emptyCost).dfdu (deltaUSol.getD i []) else 0))).sum

/-- The remap loop of `getOCPSolution`: at every input node whose projection
has a non-empty constant term, replace the projected input by
`dfdu * deltaU + f + dfdx * deltaX`. -/
def expandProjectedInputs (constraintsProjection : List VectorFunctionLinearApproximation)
    (deltaXSol deltaUSol : List (List ℚ)) : List (List ℚ) :=
  (List.range deltaUSol.length).map (fun i =>
    let proj := constraintsProjection.getD i emptyProjection
    if 0 < proj.f.length then
      vadd (vadd (matVec proj.dfdu (deltaUSol.getD i [])) proj.f)
        (matVec proj.dfdx (deltaXSol.getD i []))
    else deltaUSol.getD i [])

/-- The returned QP subproblem solution. -/
structure OcpSubproblemSolution where
  deltaXSol : List (List ℚ)
  deltaUSol : List (List ℚ)
  armijoDescentMetric : ℚ

/-- `getOCPSolution` after the external QP call: the QP output
`(deltaXSol, deltaUSol)` enters as a parameter; the function computes the
Armijo descent metric from it and then, if projection is enabled, remaps the
projected inputs to the original coordinates. -/
def getOCPSolution (projectStateInputEqualityConstraints : Bool)
    (cost : List ScalarFunctionQuadraticApproximation)
    (constraintsProjection : List VectorFunctionLinearApproximation)
    (deltaXSol deltaUSol : List (List ℚ)) : OcpSubproblemSolution :=
  let m := armijoDescentMetricOf cost deltaXSol deltaUSol
  let newDeltaU :=
    if projectStateInputEqualityConstraints then
      expandProjectedInputs constraintsProjection deltaXSol deltaUSol
    else deltaUSol
  ⟨deltaXSol, newDeltaU, m⟩

/-! ## Primal solution assembly (setPrimalSolution) -/

/-- `AnnotatedTime::Event`. -/
inductive EventType where
  | None
  | PreEvent
  | PostEvent
deriving DecidableEq

/-- `AnnotatedTime`. -/
structure AnnotatedTime where
  time : ℚ
  event : EventType

/-- Out-of-range access default for a time grid. -/
def atDefault : AnnotatedTime := ⟨0, EventType.None⟩

/-- Whether grid node `i` is a pre-event node. -/
def isPreEventAt (time : List AnnotatedTime) (i : ℕ) : Bool :=
  decide ((time.getD i atDefault).event = EventType.PreEvent)

/-- The pre-event input-correction loop of `setPrimalSolution`
(`u[i] = u[i-1]` at every pre-event node with `i > 0`), rendered as the value
of entry `i` after the ascending in-place pass. -/
def correctedInputAt (time : List AnnotatedTime) (u : List (List ℚ)) : ℕ → List ℚ
  | 0 => u.getD 0 []
  | i + 1 =>
      if isPreEventAt time (i + 1) then correctedInputAt time u i
      else u.getD (i + 1) []

/-- The stored `inputTrajectory_`: the corrected inputs, with the last one
repeated to match the time-grid length (`u.push_back(u.back())`). -/
def inputTrajectoryOf (time : List AnnotatedTime) (u : List (List ℚ)) :
    List (List ℚ) :=
  (List.range u.length).map (correctedInputAt time u) ++
    [correctedInputAt time u (u.length - 1)]

/-- The gain pushed at a non-pre-event node `i`: `dfdx + dfdu * K[i]` when the
projection at `i` has a non-empty constant term, else the Riccati gain
`K[i]`. -/
def gainAtNode (constraintsProjection : List VectorFunctionLinearApproximation)
    (KMatrices : List (List (List ℚ))) (i : ℕ) : List (List ℚ) :=
  let proj := constraintsProjection.getD i emptyProjection
  if 0 < proj.f.length then
    matAdd proj.dfdx (matMul proj.dfdu (KMatrices.getD i []))
  else KMatrices.getD i []

/-- The feedback-gain entry at node `i` after the ascending loop of
`setPrimalSolution` (pre-event nodes repeat the preceding entry). -/
def controllerGainAt (time : List AnnotatedTime)
    (constraintsProjection : List VectorFunctionLinearApproximation)
    (KMatrices : List (List (List ℚ))) : ℕ → List (List ℚ)
  | 0 => gainAtNode constraintsProjection KMatrices 0
  | i + 1 =>
      if isPreEventAt time (i + 1) then
        controllerGainAt time constraintsProjection KMatrices i
      else gainAtNode constraintsProjection KMatrices (i + 1)

/-- The feedforward entry at node `i` after the same loop:
`uff[i] = u[i] - gain_i * x[i]` at non-pre-event nodes, repeat of the
preceding entry at pre-event nodes. -/
def uffAt (time : List AnnotatedTime)
    (constraintsProjection : List VectorFunctionLinearApproximation)
    (KMatrices : List (List (List ℚ))) (x u : List (List ℚ)) : ℕ → List ℚ
  | 0 =>
      vsub (correctedInputAt time u 0)
        (matVec (controllerGainAt time constraintsProjection KMatrices 0) (x.getD 0 []))
  | i + 1 =>
      if isPreEventAt time (i + 1) then uffAt time constraintsProjection KMatrices x u i
      else
        vsub (correctedInputAt time u (i + 1))
          (matVec (controllerGainAt time constraintsProjection KMatrices (i + 1))
            (x.getD (i + 1) []))

/-- The stored feedback-gain list: the loop runs while `i + 1 < time.size()`,
then the last entry is copied once more. -/
def controllerGainListOf (time : List AnnotatedTime)
    (constraintsProjection : List VectorFunctionLinearApproximation)
    (KMatrices : List (List (List ℚ))) : List (List (List ℚ)) :=
  (List.range (time.length - 1)).map
      (controllerGainAt time constraintsProjection KMatrices) ++
    [controllerGainAt time constraintsProjection KMatrices (time.length - 2)]

/-- The stored feedforward list, same shape as the gain list. -/
def uffListOf (time : List AnnotatedTime)
    (constraintsProjection : List VectorFunctionLinearApproximation)
    (KMatrices : List (List (List ℚ))) (x u : List (List ℚ)) : List (List ℚ) :=
  (List.range (time.length - 1)).map
      (uffAt time constraintsProjection KMatrices x u) ++
    [uffAt time constraintsProjection KMatrices x u (time.length - 2)]

/-- The controller stored in the primal solution: `LinearController` with
feedforward and gains, or `FeedforwardController` over the input trajectory. -/
inductive ControllerRep where
  | linear (uff : List (List ℚ)) (gain : List (List (List ℚ)))
  | feedforward (inputTrajectory : List (List ℚ))

/-- The fields of `PrimalSolution` assembled by `setPrimalSolution`. -/
structure PrimalSolution where
  timeTrajectory : List ℚ
  stateTrajectory : List (List ℚ)
  inputTrajectory : List (List ℚ)
  controller : ControllerRep

/-- `MultipleShootingSolver::setPrimalSolution`: correct pre-event inputs,
optionally compute the feedback policy (gains from the Riccati matrices
`KMatrices` of the external QP interface), store the trajectories with the
last input repeated, and assign the controller. -/
def setPrimalSolution (useFeedbackPolicy : Bool)
    (constraintsProjection : List VectorFunctionLinearApproximation)
    (KMatrices : List (List (List ℚ))) (time : List AnnotatedTime)
    (x u : List (List ℚ)) : PrimalSolution :=
  { timeTrajectory := time.map AnnotatedTime.time,
    stateTrajectory := x,
    inputTrajectory := inputTrajectoryOf time u,
    controller :=
      if useFeedbackPolicy then
        ControllerRep.linear (uffListOf time constraintsProjection KMatrices x u)
          (controllerGainListOf time constraintsProjection KMatrices)
      else ControllerRep.feedforward (inputTrajectoryOf time u) }

/-! ## Filter line search (takeStep) -/

/-- `trajectoryNorm`: square root of the summed squared norms. -/
noncomputable def trajectoryNorm (v : List (List ℝ)) : ℝ :=
  Real.sqrt ((v.map sumSq).sum)

/-- The total constraint-violation function of the filter:
`sqrt(stateEqISE + stateInputEqISE + ineqISE)`. -/
noncomputable def constraintViolation (performance : PerformanceIndex) : ℝ :=
  Real.sqrt (performance.stateEqConstraintISE + performance.stateInputEqConstraintISE +
    performance.inequalityConstraintISE)

/-- The data `takeStep` works on.  The performance recomputation
`computePerformance(timeDiscretization, initState, xNew, uNew)` is implemented
by the transcription module outside the analysed translation unit, so it
enters as the abstract function `computePerf` of the trial trajectories. -/
structure TakeStepContext where
  settings : Settings
  baseline : PerformanceIndex
  x : List (List ℝ)
  u : List (List ℝ)
  deltaXSol : List (List ℝ)
  deltaUSol : List (List ℝ)
  armijoDescentMetric : ℝ
  computePerf : List (List ℝ) → List (List ℝ) → PerformanceIndex

/-- The trial state trajectory `xNew[i] = x[i] + alpha * dx[i]`. -/
def xNewTraj (ctx : TakeStepContext) (alpha : ℝ) : List (List ℝ) :=
  List.zipWith (fun xi dxi => vadd xi (smulV alpha dxi)) ctx.x ctx.deltaXSol

/-- The trial input trajectory: entries with a non-empty update get
`u[i] + alpha * du[i]`; entries with an empty update (event nodes) are never
assigned and stay the default-constructed empty vector. -/
def uNewTraj (ctx : TakeStepContext) (alpha : ℝ) : List (List ℝ) :=
  List.zipWith (fun ui dui => if 0 < dui.length then vadd ui (smulV alpha dui) else [])
    ctx.u ctx.deltaUSol

/-- The performance index of the trial iterate at step size `alpha`. -/
def performanceNewAt (ctx : TakeStepContext) (alpha : ℝ) : PerformanceIndex :=
  ctx.computePerf (xNewTraj ctx alpha) (uNewTraj ctx alpha)

/-- `stepSizeBelowTol`: both scaled update norms under `deltaTol`. -/
noncomputable def stepSizeBelowTol (ctx : TakeStepContext) (alpha : ℝ) : Prop :=
  alpha * trajectoryNorm ctx.deltaUSol < ctx.settings.deltaTol ∧
    alpha * trajectoryNorm ctx.deltaXSol < ctx.settings.deltaTol

/-- `improvementBelowTol`: merit change under `costTol` with violation under
`g_min`, evaluated on an accepted trial step. -/
noncomputable def improvementBelowTol (ctx : TakeStepContext) (alpha : ℝ) : Prop :=
  |ctx.baseline.merit - (performanceNewAt ctx alpha).merit| < ctx.settings.costTol ∧
    constraintViolation (performanceNewAt ctx alpha) < ctx.settings.g_min

open Classical in
/-- The `stepAccepted` lambda of `takeStep`: reject any trial whose violation
exceeds `g_max`; in the low-violation descent case require the Armijo
condition; otherwise require merit decrease or violation decrease. -/
noncomputable def stepAccepted (ctx : TakeStepContext) (alpha : ℝ)
    (performanceNew : PerformanceIndex) : Prop :=
  if constraintViolation performanceNew > ctx.settings.g_max then
    False
  else if constraintViolation performanceNew < ctx.settings.g_min ∧
      constraintViolation ctx.baseline < ctx.settings.g_min ∧
      ctx.armijoDescentMetric < 0 then
    performanceNew.merit <
      ctx.baseline.merit + ctx.settings.armijoFactor * alpha * ctx.armijoDescentMetric
  else
    performanceNew.merit <
        ctx.baseline.merit - ctx.settings.gamma_c * constraintViolation ctx.baseline ∨
      constraintViolation performanceNew <
        (1 - ctx.settings.gamma_c) * constraintViolation ctx.baseline

/-- The value returned by `takeStep` together with the final iterate.
`converged` embeds the returned boolean as the truth of the condition under
which the code returns `true`.  `acceptedAlpha` records which return produced
the result: `some alpha` for the step-accepted return, `none` for the two
returns that exit without accepting a step. -/
structure TakeStepResult where
  converged : Prop
  performance : PerformanceIndex
  x : List (List ℝ)
  u : List (List ℝ)
  acceptedAlpha : Option ℝ

/-- The do/while loop of `takeStep` as a step relation on the trial step size:
`TakeStepExec ctx alpha r` holds when the loop entered with step size `alpha`
terminates with result `r`.  The four constructors are the four branches of
the loop body: accept and return; reject with a too-small step and return the
baseline; reject, shrink and continue while `alpha > alpha_min`; reject at the
`alpha_min` floor and return the baseline. -/
inductive TakeStepExec (ctx : TakeStepContext) : ℝ → TakeStepResult → Prop
  | accept (alpha : ℝ)
      (h : stepAccepted ctx alpha (performanceNewAt ctx alpha)) :
      TakeStepExec ctx alpha
        ⟨stepSizeBelowTol ctx alpha ∨ improvementBelowTol ctx alpha,
          performanceNewAt ctx alpha, xNewTraj ctx alpha, uNewTraj ctx alpha,
          some alpha⟩
  | stallSmallStep (alpha : ℝ)
      (h1 : ¬ stepAccepted ctx alpha (performanceNewAt ctx alpha))
      (h2 : stepSizeBelowTol ctx alpha) :
      TakeStepExec ctx alpha ⟨True, ctx.baseline, ctx.x, ctx.u, none⟩
  | shrink (alpha : ℝ) (r : TakeStepResult)
      (h1 : ¬ stepAccepted ctx alpha (performanceNewAt ctx alpha))
      (h2 : ¬ stepSizeBelowTol ctx alpha)
      (h3 : ctx.settings.alpha_min < alpha * ctx.settings.alpha_decay)
      (h4 : TakeStepExec ctx (alpha * ctx.settings.alpha_decay) r) :
      TakeStepExec ctx alpha r
  | stallFloor (alpha : ℝ)
      (h1 : ¬ stepAccepted ctx alpha (performanceNewAt ctx alpha))
      (h2 : ¬ stepSizeBelowTol ctx alpha)
      (h3 : ¬ ctx.settings.alpha_min < alpha * ctx.settings.alpha_decay) :
      TakeStepExec ctx alpha ⟨True, ctx.baseline, ctx.x, ctx.u, none⟩

/-- Rendered from the claim wording for comparison: the convergence condition
claimed for the iteration, with the two scaled update norms added. -/
noncomputable def claimedConvergenceCondition (ctx : TakeStepContext) (alpha : ℝ)
    (performanceNew : PerformanceIndex) : Prop :=
  (|ctx.baseline.merit - performanceNew.merit| < ctx.settings.costTol ∧
      constraintViolation performanceNew < ctx.settings.g_min) ∨
    alpha * trajectoryNorm ctx.deltaUSol + alpha * trajectoryNorm ctx.deltaXSol <
      ctx.settings.deltaTol

/-! ## Concrete data used by witnesses and counterexamples -/

/-- A sample settings record (integer-valued scalars for exact evaluation). -/
def settingsW : Settings := ⟨1, 1, 1, 1, 1, 1, 1, 1, 1, 1, true, false⟩

/-- A problem with an empty equality-constraint collection. -/
def ocpW : OptimalControlProblem := ⟨⟨[], []⟩⟩

/-- A freshly constructed solver state with an empty performance log. -/
def solverW : MultipleShootingSolver := ⟨settingsW, [], 0⟩

/-- An iteration oracle that converges immediately. -/
def stepW : ℕ → Bool × PerformanceIndex := fun _ => (true, ⟨0, 0, 0, 0, 0, 0⟩)

/-- A one-term collection over `ℕ` holding term `1` under name `a`. -/
def cW : Collection ℕ := ⟨[1], [("a", 0)]⟩

/-- A two-node event-free time grid. -/
def time2 : List AnnotatedTime := [⟨0, EventType.None⟩, ⟨1, EventType.None⟩]

/-- A one-by-one Riccati gain. -/
def K2 : List (List (List ℚ)) := [[[1]]]

/-- A projection with non-empty constant term at the single input node. -/
def proj2 : List VectorFunctionLinearApproximation := [⟨[[2]], [[3]], [4]⟩]

/-- States on the two-node grid. -/
def x2 : List (List ℚ) := [[1], [1]]

/-- Input on the two-node grid. -/
def u2 : List (List ℚ) := [[2]]

/-- A four-node grid with one pre/post event pair. -/
def time7 : List AnnotatedTime :=
  [⟨0, EventType.None⟩, ⟨1, EventType.PreEvent⟩, ⟨1, EventType.PostEvent⟩,
    ⟨2, EventType.None⟩]

/-- States on the four-node grid. -/
def x7 : List (List ℚ) := [[0], [0], [0], [0]]

/-- Inputs on the four-node grid. -/
def u7 : List (List ℚ) := [[1], [2], [3]]

/-- Performance index with zero cost and zero violations. -/
def pZero : PerformanceIndex := ⟨0, 0, 0, 0, 0, 0⟩

/-- Performance index with unit dynamics-constraint violation. -/
def pViolating : PerformanceIndex := ⟨0, 0, 1, 0, 0, 0⟩

/-- Settings for the stalled-line-search scenario (`g_max = 0`,
`alpha_decay = alpha_min = 1`, `deltaTol = 0`). -/
def settings5 : Settings := ⟨1, 1, 1, 1, 0, 0, 0, 0, 0, 0, false, false⟩

/-- A line-search context whose every trial step violates the filter bound
`g_max = 0`, so no step is ever accepted. -/
def ctx5 : TakeStepContext :=
  { settings := settings5, baseline := pZero, x := [[0]], u := [[0]],
    deltaXSol := [[0]], deltaUSol := [[0]], armijoDescentMetric := 0,
    computePerf := fun _ _ => pViolating }

/-- Baseline performance of the accepted-step scenario (merit 10). -/
def pBaseC : PerformanceIndex := ⟨10, 0, 0, 0, 0, 0⟩

/-- Trial performance of the accepted-step scenario (merit 5). -/
def pNewC : PerformanceIndex := ⟨5, 0, 0, 0, 0, 0⟩

/-- Settings for the accepted-step scenario (`g_max = 1`, `deltaTol = 4`). -/
def settingsC : Settings := ⟨1, 1, 1, 1, 0, 1, 0, 0, 4, 0, false, false⟩

/-- A line-search context that accepts the full step `alpha = 1`, with both
scaled update norms equal to 3. -/
def ctxC : TakeStepContext :=
  { settings := settingsC, baseline := pBaseC, x := [[0]], u := [[0]],
    deltaXSol := [[3]], deltaUSol := [[3]], armijoDescentMetric := 0,
    computePerf := fun _ _ => pNewC }

end ocs2

namespace ocs2

/-! ## Helper lemmas -/

lemma findIndexByName_append_of_none (m : List (String × ℕ)) (name : String) (v : ℕ)
    (h : findIndexByName m name = none) :
    findIndexByName (m ++ [(name, v)]) name = some v := by
  induction m with
  | nil => simp [findIndexByName]
  | cons kv rest ih =>
      obtain ⟨k, w⟩ := kv
      by_cases hk : k = name
      · simp [findIndexByName, hk] at h
      · simp only [List.cons_append, findIndexByName, if_neg hk] at h ⊢
        exact ih h

lemma getD_range_map {β : Type} (f : ℕ → β) (n i : ℕ) (hi : i < n) (dflt : β) :
    ((List.range n).map f).getD i dflt = f i := by
  simp [List.getD_eq_getElem?_getD, List.getElem?_map, List.getElem?_range hi]

lemma getD_append_left {β : Type} (l l2 : List β) (i : ℕ) (hi : i < l.length) (dflt : β) :
    (l ++ l2).getD i dflt = l.getD i dflt := by
  simp [List.getD_eq_getElem?_getD, List.getElem?_append, hi]

lemma getD_append_length {β : Type} (l : List β) (a dflt : β) :
    (l ++ [a]).getD l.length dflt = a := by
  simp [List.getD_eq_getElem?_getD, List.getElem?_concat_length]

/-! ## C3: Armijo descent metric of getOCPSolution -/

/-- C3 counterexample: with projection enabled, the returned Armijo descent
metric is computed from the projected (tilde) input coordinates before the
expansion, so it differs from the metric recomputed in the original input
coordinates after the expansion (0 versus 1 at this input). -/
theorem getOCPSolution_metric_counterexample :
    (getOCPSolution true [⟨[], [1]⟩] [⟨[[0]], [[1]], [1]⟩] [[0]] [[0]]).armijoDescentMetric
        = 0 ∧
      armijoDescentMetricOf [⟨[], [1]⟩] [[0]]
          (getOCPSolution true [⟨[], [1]⟩] [⟨[[0]], [[1]], [1]⟩] [[0]] [[0]]).deltaUSol
        = 1 ∧
      (0 : ℚ) ≠ 1 := by
  refine ⟨?_, ?_, by norm_num⟩ <;>
  · norm_num [getOCPSolution, armijoDescentMetricOf, expandProjectedInputs, dot,
      vadd, matVec, emptyCost, emptyProjection, List.range_succ]

/-- C3 (amended): `getOCPSolution` computes the Armijo descent metric
`m = Σ_i (∇_x C_i · δx_i + ∇_u C_i · δu_i)` from the QP solution before the
projection expansion (hence in the projected coordinates when projection is
enabled), and only afterwards expands `δu = P_u·δũ + p0 + P_x·δx`; `m` is not
recomputed after the expansion. -/
theorem getOCPSolution_metric_amended (pf : Bool)
    (cost : List ScalarFunctionQuadraticApproximation)
    (proj : List VectorFunctionLinearApproximation)
    (dx du : List (List ℚ)) :
    (getOCPSolution pf cost proj dx du).armijoDescentMetric =
        armijoDescentMetricOf cost dx du ∧
      (getOCPSolution pf cost proj dx du).deltaUSol =
        (if pf then expandProjectedInputs proj dx du else du) :=
  ⟨rfl, rfl⟩

/-! ## C4: merit assembly -/

/-- C4: every total performance assembled by `setupQuadraticSubproblem` and by
`computePerformance` satisfies `merit = totalCost + inequalityConstraintPenalty`
(the contribution of the equality/state violations to the merit is zero in
this solver). -/
theorem performance_merit_identity (front : PerformanceIndex)
    (rest : List PerformanceIndex) (d : ℝ) :
    ((setupQuadraticSubproblemPerformance front rest d).merit =
        (setupQuadraticSubproblemPerformance front rest d).totalCost +
          (setupQuadraticSubproblemPerformance front rest d).inequalityConstraintPenalty) ∧
      ((computePerformanceTotal front rest d).merit =
        (computePerformanceTotal front rest d).totalCost +
          (computePerformanceTotal front rest d).inequalityConstraintPenalty) :=
  ⟨rfl, rfl⟩

/-! ## C8: constructor disables projection without equality constraints -/

/-- C8: constructing the solver from a problem whose equality-constraint
collection is empty forces `projectStateInputEqualityConstraints` to `false`,
whatever the supplied settings said. -/
theorem mkSolver_empty_equality_disables_projection (settings : Settings)
    (ocp : OptimalControlProblem)
    (h : ocp.equalityConstraintPtr.empty = true) :
    (mkMultipleShootingSolver settings ocp).settings.projectStateInputEqualityConstraints
      = false := by
  simp [mkMultipleShootingSolver, h]

/-- C8 witness: a concrete empty-constraint problem. -/
theorem mkSolver_empty_equality_disables_projection_witness :
    ocpW.equalityConstraintPtr.empty = true ∧
      (mkMultipleShootingSolver settingsW ocpW).settings.projectStateInputEqualityConstraints
        = false :=
  ⟨rfl, mkSolver_empty_equality_disables_projection settingsW ocpW rfl⟩

/-! ## C9: Collection add/get -/

/-- C9: adding under an existing name fails and leaves the term sequence
unchanged; adding under a fresh name appends the term at the end and makes it
retrievable by that name; getting an unknown name fails. -/
theorem collection_add_get_contract {α : Type} (c : Collection α) (name : String)
    (term : α) :
    ((findIndexByName c.termNameMap name).isSome = true →
        (c.add name term).1.isSome = true ∧ (c.add name term).2 = c) ∧
      (findIndexByName c.termNameMap name = none →
        (c.add name term).1 = none ∧
          (c.add name term).2.terms = c.terms ++ [term] ∧
          (c.add name term).2.get name = Except.ok term) ∧
      (findIndexByName c.termNameMap name = none →
        ∃ msg, c.get name = Except.error msg) := by
  refine ⟨?_, ?_, ?_⟩
  · intro h
    obtain ⟨v, hv⟩ := Option.isSome_iff_exists.mp h
    simp [Collection.add, hv]
  · intro h
    refine ⟨by simp [Collection.add, h], by simp [Collection.add, h], ?_⟩
    simp only [Collection.add, h]
    simp [Collection.get, findIndexByName_append_of_none _ _ _ h,
      List.get?_eq_getElem?, List.getElem?_concat_length]
  · intro h
    refine ⟨"[Collection::get] unknown term " ++ name, ?_⟩
    simp [Collection.get, h]

/-- C9 witness: concrete duplicate insert, fresh insert and unknown lookup. -/
theorem collection_add_get_contract_witness :
    (findIndexByName cW.termNameMap "a").isSome = true ∧
      (cW.add "a" 2).2 = cW ∧
      findIndexByName cW.termNameMap "b" = none ∧
      (cW.add "b" 2).2.get "b" = Except.ok 2 ∧
      (∃ msg, cW.get "b" = Except.error msg) := by
  have h1 : (findIndexByName cW.termNameMap "a").isSome = true := by decide
  have h2 : findIndexByName cW.termNameMap "b" = none := by decide
  exact ⟨h1, ((collection_add_get_contract cW "a" 2).1 h1).2, h2,
    ((collection_add_get_contract cW "b" 2).2.1 h2).2.2,
    (collection_add_get_contract cW "b" 2).2.2 h2⟩

/-! ## C10: iterations log -/

/-- C10: `getIterationsLog` fails with an error while the log is empty (in
particular before any run and immediately after `reset`); after a run the log
holds exactly one entry per SQP iteration performed. -/
theorem getIterationsLog_contract :
    (∀ s : MultipleShootingSolver, s.performanceIndeces = [] →
        ∃ msg, getIterationsLog s = Except.error msg) ∧
      (∀ s : MultipleShootingSolver,
        ∃ msg, getIterationsLog s.reset = Except.error msg) ∧
      (∀ (step : ℕ → Bool × PerformanceIndex) (fuel iter : ℕ),
        (sqpIterationLog step fuel iter).length = sqpIterationCount step fuel iter) ∧
      (∀ (s : MultipleShootingSolver) (step : ℕ → Bool × PerformanceIndex),
        0 < s.settings.sqpIteration →
        getIterationsLog (s.runImpl step) =
          Except.ok (sqpIterationLog step s.settings.sqpIteration 0)) := by
  refine ⟨?_, ?_, ?_, ?_⟩
  · intro s h
    refine ⟨"[MultipleShootingSolver]: No performance log yet, no problem solved yet?", ?_⟩
    simp [getIterationsLog, h]
  · intro s
    refine ⟨"[MultipleShootingSolver]: No performance log yet, no problem solved yet?", ?_⟩
    simp [getIterationsLog, MultipleShootingSolver.reset]
  · intro step fuel
    induction fuel with
    | zero => intro iter; simp [sqpIterationLog, sqpIterationCount]
    | succ n ih =>
        intro iter
        by_cases h : (step iter).1
        · simp [sqpIterationLog, sqpIterationCount, h]
        · simp [sqpIterationLog, sqpIterationCount, h, ih]
          omega
  · intro s step h
    unfold MultipleShootingSolver.runImpl getIterationsLog
    cases hsi : s.settings.sqpIteration with
    | zero => omega
    | succ n => simp [hsi, sqpIterationLog]

/-- C10 witness: a fresh solver errors, a run with one iteration returns a
one-entry log. -/
theorem getIterationsLog_contract_witness :
    solverW.performanceIndeces = [] ∧
      (∃ msg, getIterationsLog solverW = Except.error msg) ∧
      0 < solverW.settings.sqpIteration ∧
      getIterationsLog (solverW.runImpl stepW) =
        Except.ok (sqpIterationLog stepW solverW.settings.sqpIteration 0) :=
  ⟨rfl, getIterationsLog_contract.1 solverW rfl, by decide,
    getIterationsLog_contract.2.2.2 solverW stepW (by decide)⟩

end ocs2

namespace ocs2

lemma getD_append_singleton_of_length {β : Type} (l : List β) (a dflt : β) (n : ℕ)
    (hn : n = l.length) : (l ++ [a]).getD n dflt = a := by
  subst hn
  exact getD_append_length l a dflt

/-! ## C6: feedback gains of setPrimalSolution -/

/-- C6: with the feedback policy enabled, the gain stored at a non-pre-event
node `i` is `P_x + P_u·K_i` when the projection at `i` is active (non-empty
constant term) and the Riccati gain `K_i` otherwise, the stored feedforward
term is `u_i - gain_i·x_i`, and the primal solution carries these lists in its
linear controller. -/
theorem setPrimalSolution_gain_characterization
    (proj : List VectorFunctionLinearApproximation) (K : List (List (List ℚ)))
    (time : List AnnotatedTime) (x u : List (List ℚ)) (i : ℕ)
    (hi : i + 1 < time.length)
    (hev : i = 0 ∨ isPreEventAt time i = false) :
    (controllerGainListOf time proj K).getD i [] =
        (if 0 < (proj.getD i emptyProjection).f.length then
          matAdd (proj.getD i emptyProjection).dfdx
            (matMul (proj.getD i emptyProjection).dfdu (K.getD i []))
        else K.getD i []) ∧
      (uffListOf time proj K x u).getD i [] =
        vsub (correctedInputAt time u i)
          (matVec (gainAtNode proj K i) (x.getD i [])) ∧
      (setPrimalSolution true proj K time x u).controller =
        ControllerRep.linear (uffListOf time proj K x u)
          (controllerGainListOf time proj K) := by
  have hn : i < time.length - 1 := by omega
  have hgain : (controllerGainListOf time proj K).getD i [] =
      controllerGainAt time proj K i := by
    rw [controllerGainListOf, getD_append_left _ _ i (by simpa using hn),
      getD_range_map _ _ _ hn]
  have hgain2 : controllerGainAt time proj K i = gainAtNode proj K i := by
    cases i with
    | zero => rfl
    | succ j =>
        rcases hev with h0 | hfalse
        · exact absurd h0 (Nat.succ_ne_zero j)
        · simp [controllerGainAt, hfalse]
  have huff : (uffListOf time proj K x u).getD i [] = uffAt time proj K x u i := by
    rw [uffListOf, getD_append_left _ _ i (by simpa using hn),
      getD_range_map _ _ _ hn]
  refine ⟨?_, ?_, rfl⟩
  · rw [hgain, hgain2]
    rfl
  · rw [huff]
    cases i with
    | zero => rfl
    | succ j =>
        rcases hev with h0 | hfalse
        · exact absurd h0 (Nat.succ_ne_zero j)
        · simp [uffAt, controllerGainAt, hfalse]

/-- C6 witness: a concrete projected node on a two-node grid. -/
theorem setPrimalSolution_gain_characterization_witness :
    (0 + 1 < time2.length) ∧
      (controllerGainListOf time2 proj2 K2).getD 0 [] =
        (if 0 < (proj2.getD 0 emptyProjection).f.length then
          matAdd (proj2.getD 0 emptyProjection).dfdx
            (matMul (proj2.getD 0 emptyProjection).dfdu (K2.getD 0 []))
        else K2.getD 0 []) :=
  ⟨by decide,
    (setPrimalSolution_gain_characterization proj2 K2 time2 x2 u2 0 (by decide)
      (Or.inl rfl)).1⟩

/-! ## C7: primal-solution trajectory invariants -/

/-- C7: the assembled time, state and input trajectories have equal lengths,
and at every pre-event node with positive index the stored input repeats the
input of the preceding node. -/
theorem setPrimalSolution_trajectory_invariants
    (fb : Bool) (proj : List VectorFunctionLinearApproximation)
    (K : List (List (List ℚ))) (time : List AnnotatedTime) (x u : List (List ℚ))
    (hx : x.length = time.length) (hu : u.length + 1 = time.length) :
    (setPrimalSolution fb proj K time x u).timeTrajectory.length =
        (setPrimalSolution fb proj K time x u).stateTrajectory.length ∧
      (setPrimalSolution fb proj K time x u).stateTrajectory.length =
        (setPrimalSolution fb proj K time x u).inputTrajectory.length ∧
      ∀ i, 0 < i → i < time.length →
        (time.getD i atDefault).event = EventType.PreEvent →
        (setPrimalSolution fb proj K time x u).inputTrajectory.getD i [] =
          (setPrimalSolution fb proj K time x u).inputTrajectory.getD (i - 1) [] := by
  refine ⟨?_, ?_, ?_⟩
  · simp [setPrimalSolution, hx]
  · simp only [setPrimalSolution, inputTrajectoryOf]
    simp
    omega
  · intro i h0 hilen hev
    have hpre : isPreEventAt time i = true := by
      simp only [isPreEventAt, decide_eq_true_eq]
      exact hev
    simp only [setPrimalSolution]
    have hiu : i ≤ u.length := by omega
    rcases Nat.lt_or_ge i u.length with hlt | hge
    · rw [inputTrajectoryOf, getD_append_left _ _ i (by simpa using hlt),
        getD_append_left _ _ (i - 1) (by simp; omega),
        getD_range_map _ _ _ hlt, getD_range_map _ _ _ (by omega)]
      cases i with
      | zero => omega
      | succ j =>
          show correctedInputAt time u (j + 1) = correctedInputAt time u (j + 1 - 1)
          simp only [Nat.add_sub_cancel]
          simp [correctedInputAt, hpre]
    · have heq : i = u.length := le_antisymm hiu hge
      subst heq
      rw [inputTrajectoryOf, getD_append_singleton_of_length _ _ _ _ (by simp),
        getD_append_left _ _ (u.length - 1) (by simp; omega),
        getD_range_map _ _ _ (by omega)]

/-- C7 witness: the four-node grid with one event pair. -/
theorem setPrimalSolution_trajectory_invariants_witness :
    x7.length = time7.length ∧ u7.length + 1 = time7.length ∧
      (setPrimalSolution false [] [] time7 x7 u7).inputTrajectory.getD 1 [] =
        (setPrimalSolution false [] [] time7 x7 u7).inputTrajectory.getD 0 [] := by
  have h := setPrimalSolution_trajectory_invariants false [] [] time7 x7 u7
    (by decide) (by decide)
  exact ⟨by decide, by decide, h.2.2 1 (by decide) (by decide) (by decide)⟩

end ocs2

namespace ocs2

/-! ## Helper lemmas for the line-search scenarios -/

lemma sqrt_nine_eq : Real.sqrt 9 = 3 := by
  rw [show (9 : ℝ) = 3 ^ 2 by norm_num]
  exact Real.sqrt_sq (by norm_num)

lemma trajectoryNorm_single3 : trajectoryNorm [[(3 : ℝ)]] = 3 := by
  have h : (([[(3 : ℝ)]]).map sumSq).sum = 9 := by
    simp [sumSq]
    norm_num
  rw [trajectoryNorm, h, sqrt_nine_eq]

lemma trajectoryNorm_single0 : trajectoryNorm [[(0 : ℝ)]] = 0 := by
  have h : (([[(0 : ℝ)]]).map sumSq).sum = 0 := by simp [sumSq]
  rw [trajectoryNorm, h, Real.sqrt_zero]

lemma constraintViolation_pZero : constraintViolation pZero = 0 := by
  simp [constraintViolation, pZero]

lemma constraintViolation_pViolating : constraintViolation pViolating = 1 := by
  simp [constraintViolation, pViolating]

lemma constraintViolation_pBaseC : constraintViolation pBaseC = 0 := by
  simp [constraintViolation, pBaseC]

lemma constraintViolation_pNewC : constraintViolation pNewC = 0 := by
  simp [constraintViolation, pNewC]

lemma ctx5_perfNew (alpha : ℝ) : performanceNewAt ctx5 alpha = pViolating := rfl

lemma ctxC_perfNew (alpha : ℝ) : performanceNewAt ctxC alpha = pNewC := rfl

lemma ctx5_not_accepted (alpha : ℝ) :
    ¬ stepAccepted ctx5 alpha (performanceNewAt ctx5 alpha) := by
  have hgt : constraintViolation pViolating > ctx5.settings.g_max := by
    norm_num [ctx5, settings5, constraintViolation_pViolating]
  intro hacc
  rw [ctx5_perfNew] at hacc
  unfold stepAccepted at hacc
  rw [if_pos hgt] at hacc
  exact hacc

lemma ctx5_not_belowTol : ¬ stepSizeBelowTol ctx5 1 := by
  intro hb
  obtain ⟨h1, -⟩ := hb
  rw [show ctx5.deltaUSol = [[(0 : ℝ)]] from rfl, trajectoryNorm_single0,
    show ctx5.settings.deltaTol = (0 : ℝ) from rfl] at h1
  linarith

lemma ctx5_floor : ¬ ctx5.settings.alpha_min < 1 * ctx5.settings.alpha_decay := by
  norm_num [ctx5, settings5]

lemma ctx5_exec : TakeStepExec ctx5 1 ⟨True, ctx5.baseline, ctx5.x, ctx5.u, none⟩ :=
  TakeStepExec.stallFloor 1 (ctx5_not_accepted 1) ctx5_not_belowTol ctx5_floor

lemma ctxC_accepts : stepAccepted ctxC 1 (performanceNewAt ctxC 1) := by
  have h1 : ¬ constraintViolation pNewC > ctxC.settings.g_max := by
    norm_num [ctxC, settingsC, constraintViolation_pNewC]
  have h2 : ¬ (constraintViolation pNewC < ctxC.settings.g_min ∧
      constraintViolation ctxC.baseline < ctxC.settings.g_min ∧
      ctxC.armijoDescentMetric < 0) := by
    rintro ⟨hh, -, -⟩
    norm_num [ctxC, settingsC, constraintViolation_pNewC] at hh
  rw [ctxC_perfNew]
  unfold stepAccepted
  rw [if_neg h1, if_neg h2]
  left
  norm_num [ctxC, settingsC, pNewC, pBaseC, constraintViolation_pBaseC]

lemma ctxC_belowTol : stepSizeBelowTol ctxC 1 := by
  unfold stepSizeBelowTol
  rw [show ctxC.deltaUSol = [[(3 : ℝ)]] from rfl,
    show ctxC.deltaXSol = [[(3 : ℝ)]] from rfl, trajectoryNorm_single3,
    show ctxC.settings.deltaTol = (4 : ℝ) from rfl]
  norm_num

/-! ## C1: filter acceptance condition -/

/-- C1: a trial step is accepted by the filter exactly when its constraint
violation is at most `g_max` and, in the low-violation descent case, the
Armijo condition holds, otherwise the sufficient-decrease condition holds; in
particular a step with violation above `g_max` is never accepted. -/
theorem stepAccepted_characterization (ctx : TakeStepContext) (alpha : ℝ)
    (performanceNew : PerformanceIndex) :
    (stepAccepted ctx alpha performanceNew ↔
        (constraintViolation performanceNew ≤ ctx.settings.g_max ∧
          ((constraintViolation performanceNew < ctx.settings.g_min ∧
                constraintViolation ctx.baseline < ctx.settings.g_min ∧
                ctx.armijoDescentMetric < 0) ∧
              performanceNew.merit <
                ctx.baseline.merit +
                  ctx.settings.armijoFactor * alpha * ctx.armijoDescentMetric ∨
            ¬(constraintViolation performanceNew < ctx.settings.g_min ∧
                constraintViolation ctx.baseline < ctx.settings.g_min ∧
                ctx.armijoDescentMetric < 0) ∧
              (performanceNew.merit <
                  ctx.baseline.merit -
                    ctx.settings.gamma_c * constraintViolation ctx.baseline ∨
                constraintViolation performanceNew <
                  (1 - ctx.settings.gamma_c) * constraintViolation ctx.baseline)))) ∧
      (ctx.settings.g_max < constraintViolation performanceNew →
        ¬ stepAccepted ctx alpha performanceNew) := by
  constructor
  · unfold stepAccepted
    split_ifs with h1 h2
    · constructor
      · intro f
        exact f.elim
      · rintro ⟨hle, -⟩
        exact absurd h1 (not_lt.mpr hle)
    · constructor
      · intro hc
        exact ⟨not_lt.mp h1, Or.inl ⟨h2, hc⟩⟩
      · rintro ⟨-, hor⟩
        rcases hor with ⟨-, hc⟩ | ⟨hn, -⟩
        · exact hc
        · exact absurd h2 hn
    · constructor
      · intro hc
        exact ⟨not_lt.mp h1, Or.inr ⟨h2, hc⟩⟩
      · rintro ⟨-, hor⟩
        rcases hor with ⟨hcase, -⟩ | ⟨-, hc⟩
        · exact absurd hcase h2
        · exact hc
  · intro hgt hacc
    unfold stepAccepted at hacc
    rw [if_pos hgt] at hacc
    exact hacc

/-- C1 witness: a violation of 1 against `g_max = 0` is rejected. -/
theorem stepAccepted_characterization_witness :
    ctx5.settings.g_max < constraintViolation pViolating ∧
      ¬ stepAccepted ctx5 1 pViolating := by
  have h : ctx5.settings.g_max < constraintViolation pViolating := by
    norm_num [ctx5, settings5, constraintViolation_pViolating]
  exact ⟨h, (stepAccepted_characterization ctx5 1 pViolating).2 h⟩

/-! ## C2: convergence declaration of takeStep -/

/-- C2 counterexample: on this input `takeStep` accepts the full step and
declares convergence (each scaled update norm is 3, below `deltaTol = 4`),
while the claimed condition is false: the merit change is not below `costTol`
and the sum of the scaled update norms is 6, not below `deltaTol = 4`. -/
theorem takeStep_convergence_counterexample :
    TakeStepExec ctxC 1
        ⟨stepSizeBelowTol ctxC 1 ∨ improvementBelowTol ctxC 1,
          performanceNewAt ctxC 1, xNewTraj ctxC 1, uNewTraj ctxC 1, some 1⟩ ∧
      (stepSizeBelowTol ctxC 1 ∨ improvementBelowTol ctxC 1) ∧
      ¬ claimedConvergenceCondition ctxC 1 (performanceNewAt ctxC 1) := by
  refine ⟨TakeStepExec.accept 1 ctxC_accepts, Or.inl ctxC_belowTol, ?_⟩
  intro hc
  unfold claimedConvergenceCondition at hc
  rcases hc with ⟨habs, -⟩ | hsum
  · have hnn := abs_nonneg (ctxC.baseline.merit - (performanceNewAt ctxC 1).merit)
    rw [show ctxC.settings.costTol = (0 : ℝ) from rfl] at habs
    linarith
  · rw [show ctxC.deltaUSol = [[(3 : ℝ)]] from rfl,
      show ctxC.deltaXSol = [[(3 : ℝ)]] from rfl, trajectoryNorm_single3,
      show ctxC.settings.deltaTol = (4 : ℝ) from rfl] at hsum
    linarith

/-- C2 (amended): `takeStep` declares the iteration converged iff it exited
without accepting any step, or the accepted step of length `alpha` satisfies
`|merit_base - merit_new| < costTol` with `theta_new < g_min`, or
`alpha·‖δu‖ < deltaTol` and `alpha·‖δx‖ < deltaTol` with each norm compared
separately, not through their sum. -/
theorem takeStep_convergence_characterization (ctx : TakeStepContext) (alpha : ℝ)
    (r : TakeStepResult) (h : TakeStepExec ctx alpha r) :
    r.converged ↔
      (r.acceptedAlpha = none ∨
        ∃ b, r.acceptedAlpha = some b ∧
          (stepSizeBelowTol ctx b ∨ improvementBelowTol ctx b)) := by
  induction h with
  | accept a ha => simp
  | stallSmallStep a h1 h2 => simp
  | shrink a r' h1 h2 h3 h4 ih => exact ih
  | stallFloor a h1 h2 h3 => simp

/-- C2 amended-theorem witness: the accepted-step scenario instantiated. -/
theorem takeStep_convergence_characterization_witness :
    TakeStepExec ctxC 1
        ⟨stepSizeBelowTol ctxC 1 ∨ improvementBelowTol ctxC 1,
          performanceNewAt ctxC 1, xNewTraj ctxC 1, uNewTraj ctxC 1, some 1⟩ ∧
      ((stepSizeBelowTol ctxC 1 ∨ improvementBelowTol ctxC 1) ↔
        ((some (1 : ℝ) = none) ∨
          ∃ b, some (1 : ℝ) = some b ∧
            (stepSizeBelowTol ctxC b ∨ improvementBelowTol ctxC b))) := by
  have hexec : TakeStepExec ctxC 1
      ⟨stepSizeBelowTol ctxC 1 ∨ improvementBelowTol ctxC 1,
        performanceNewAt ctxC 1, xNewTraj ctxC 1, uNewTraj ctxC 1, some 1⟩ :=
    TakeStepExec.accept 1 ctxC_accepts
  exact ⟨hexec, takeStep_convergence_characterization ctxC 1 _ hexec⟩

/-! ## C5: stalled line search -/

/-- C5: whenever the line search exits without accepting any candidate, the
result is a clean converged result carrying the baseline performance index,
and the iterate `(x, u)` is unchanged. -/
theorem takeStep_stalled_returns_baseline (ctx : TakeStepContext) (alpha : ℝ)
    (r : TakeStepResult) (h : TakeStepExec ctx alpha r)
    (hnone : r.acceptedAlpha = none) :
    r = ⟨True, ctx.baseline, ctx.x, ctx.u, none⟩ := by
  revert hnone
  induction h with
  | accept a ha =>
      intro hnone
      simp at hnone
  | stallSmallStep a h1 h2 =>
      intro _
      rfl
  | shrink a r' h1 h2 h3 h4 ih =>
      intro hnone
      exact ih hnone
  | stallFloor a h1 h2 h3 =>
      intro _
      rfl

/-- C5 witness: the always-rejected scenario stalls at the `alpha_min` floor
and returns the baseline with the iterate unchanged. -/
theorem takeStep_stalled_returns_baseline_witness :
    TakeStepExec ctx5 1 ⟨True, ctx5.baseline, ctx5.x, ctx5.u, none⟩ ∧
      (⟨True, ctx5.baseline, ctx5.x, ctx5.u, none⟩ : TakeStepResult).acceptedAlpha
          = none ∧
      (⟨True, ctx5.baseline, ctx5.x, ctx5.u, none⟩ : TakeStepResult) =
        ⟨True, ctx5.baseline, ctx5.x, ctx5.u, none⟩ :=
  ⟨ctx5_exec, rfl, takeStep_stalled_returns_baseline ctx5 1 _ ctx5_exec rfl⟩

end ocs2
